import Mathlib

/-!
The class `Table` of mctools/cinder/Table.cc.

A shallow embedding of the `Table` class and the properties of its member
functions.

Modelling conventions.

* `std::vector<T>` is a `List T`; `push_back` appends at the end.
* `std::string` is `String`; `int` is `Int` and `size_t` is `Nat`.
* `beamStates` is a `vector<bool>`, one bit per entry, so sizes beyond the
  range of `int` are within reach: `getNBeamStates` narrows `size()` to the
  32-bit `int` with `intOfSize`.  `Nuclides` holds objects with a string and
  a vector each; the number of stored nuclides is taken to be representable
  in `int`, so the conversion of `Nuclides.size()` to `int` keeps the value.
* `double` values are only stored and copied by `Table`, never inspected, so
  the element type `D` of the time steps and activities is a parameter.
* A member function that changes the object returns the new `Table`.
  A member function that can leave through an exception returns a `Res`.
* The `for` loops are run on a step budget that is fixed by the entry point
  (`size() + 1` steps); `Res.unfinished` marks an exhausted budget.
-/

namespace Cinder

variable {D : Type}

/-- Result of a call: a normal return, the `std::out_of_range` exception of
`std::vector::at`, or a loop whose step budget ran out. -/
inductive Res (α : Type) where
  | ret (a : α)
  | out_of_range
  | unfinished
deriving DecidableEq, Repr

/-- Modelled from the spec: the `Nuclide` class (Nuclide.hh / Nuclide.cc are not
part of the sources).  The spec requires a name (`getName()`) and an activity
series that `trimActivity` bounds. -/
structure Nuclide (D : Type) where
  name : String
  activity : List D
deriving DecidableEq, Repr

/-- Modelled from the spec: `Nuclide::getName()` returns the name. -/
def Nuclide.getName (x : Nuclide D) : String := x.name

/-- Modelled from the spec: `Nuclide::trimActivity(maxLength)` truncates the
activity series to its first `maxLength` entries; the name is not touched. -/
def Nuclide.trimActivity (maxLength : Int) (x : Nuclide D) : Nuclide D :=
  { x with activity := x.activity.take maxLength.toNat }

/-- The data members of `Table`. -/
structure Table (D : Type) where
  tableName : String
  tableNumber : Int
  timeSteps : List D
  beamStates : List Bool
  Nuclides : List (Nuclide D)
deriving DecidableEq, Repr

/-- The constructor `Table::Table(string name, int number)`: the two identity
fields are assigned, the three vectors are default-constructed. -/
def Table.construct (name : String) (number : Int) : Table D :=
  { tableName := name, tableNumber := number, timeSteps := [], beamStates := [],
    Nuclides := [] }

/-- Member function `Table::setName`. -/
def Table.setName (t : Table D) (name : String) : Table D :=
  { t with tableName := name }

/-- Member function `Table::setNumber`. -/
def Table.setNumber (t : Table D) (number : Int) : Table D :=
  { t with tableNumber := number }

/-- Member function `Table::getName`. -/
def Table.getName (t : Table D) : String := t.tableName

/-- Member function `Table::getNumber`. -/
def Table.getNumber (t : Table D) : Int := t.tableNumber

/-- Member function `Table::getNNuclides`: `Nuclides.size()` as an `int`. -/
def Table.getNNuclides (t : Table D) : Int := (t.Nuclides.length : Int)

/-- The conversion of a `size_t` value to the 32-bit `int`: the value modulo
`2^32`, read in two's complement (`2^32 = 4294967296`, `2^31 = 2147483648`). -/
def intOfSize (n : Nat) : Int :=
  if n % 4294967296 < 2147483648 then ((n % 4294967296 : Nat) : Int)
  else ((n % 4294967296 : Nat) : Int) - 4294967296

/-- Member function `Table::getNBeamStates`: `beamStates.size()` returned as an
`int`, which narrows the size to 32 bits. -/
def Table.getNBeamStates (t : Table D) : Int := intOfSize t.beamStates.length

/-- Member function `Table::addBeamState`: `push_back` on `beamStates`. -/
def Table.addBeamState (t : Table D) (s : Bool) : Table D :=
  { t with beamStates := t.beamStates ++ [s] }

/-- Member function `Table::addTimeStep`: `push_back` on `timeSteps`. -/
def Table.addTimeStep (t : Table D) (tS : D) : Table D :=
  { t with timeSteps := t.timeSteps ++ [tS] }

/-- Member function `Table::addNuclide`: `push_back`, then `Nuclides.size()-1` of the grown
vector is returned.  The first component is the returned `int`. -/
def Table.addNuclide (t : Table D) (n : Nuclide D) : Int × Table D :=
  let t1 : Table D := { t with Nuclides := t.Nuclides ++ [n] }
  (((t1.Nuclides.length - 1 : Nat) : Int), t1)

/-- The call of `std::vector::at` with an `int`.  The argument is converted to the
unsigned `size_type`: a non-negative value is kept, a negative value becomes a
value above every container size.  `at` throws `std::out_of_range` unless the
converted index is below `size()`. -/
def vecAt {α : Type} (v : List α) (i : Int) : Res α :=
  match i with
  | Int.ofNat k =>
    match v[k]? with
    | some x => Res.ret x
    | none => Res.out_of_range
  | Int.negSucc _ => Res.out_of_range

/-- Member function `Table::getNuclide`: `&Nuclides.at(i)`.  The returned pointer designates
slot `i` of `Nuclides`; the value is the nuclide stored there. -/
def Table.getNuclide (t : Table D) (i : Int) : Res (Nuclide D) :=
  vecAt t.Nuclides i

/-- The loop of `Table::findNuclide`, started at index `i` with the current
value of `pos`.  A match assigns `pos = i` and breaks; the value of `pos` is
what the function returns. -/
def Table.findNuclideLoop (t : Table D) (n : String) : Nat → Int → Int → Res Int
  | 0, _, _ => Res.unfinished
  | fuel + 1, i, pos =>
    if i < (t.Nuclides.length : Int) then
      match vecAt t.Nuclides i with
      | Res.ret x =>
        if x.getName = n then Res.ret i
        else Table.findNuclideLoop t n fuel (i + 1) pos
      | Res.out_of_range => Res.out_of_range
      | Res.unfinished => Res.unfinished
    else Res.ret pos

/-- Member function `Table::findNuclide`. -/
def Table.findNuclide (t : Table D) (n : String) : Res Int :=
  t.findNuclideLoop n (t.Nuclides.length + 1) 0 (-1)

/-- The loop of `Table::finalizeTable` from index `i`:
`getNuclide(i)->trimActivity(max)` writes through the pointer into slot `i`.
`trim` is `Nuclide::trimActivity`. -/
def Table.finalizeTableLoop (trim : Int → Nuclide D → Nuclide D) (max : Int) :
    Nat → Int → Table D → Res Unit × Table D
  | 0, _, t => (Res.unfinished, t)
  | fuel + 1, i, t =>
    if i < t.getNNuclides then
      match t.getNuclide i with
      | Res.ret x =>
        Table.finalizeTableLoop trim max fuel (i + 1)
          { t with Nuclides := t.Nuclides.set i.toNat (trim max x) }
      | Res.out_of_range => (Res.out_of_range, t)
      | Res.unfinished => (Res.unfinished, t)
    else (Res.ret (), t)

/-- Member function `Table::finalizeTable`, with `Nuclide::trimActivity` as the parameter
`trim`.  The result is how the call ends and the `Table` it leaves. -/
def Table.finalizeTable (trim : Int → Nuclide D → Nuclide D) (t : Table D) :
    Res Unit × Table D :=
  let max := t.getNBeamStates
  Table.finalizeTableLoop trim max (t.Nuclides.length + 1) 0 t

/-- Member function `Table::getTimeSteps`: a copy of the vector. -/
def Table.getTimeSteps (t : Table D) : List D := t.timeSteps

/-- Member function `Table::getBeamStates`: a copy of the vector. -/
def Table.getBeamStates (t : Table D) : List Bool := t.beamStates

/-- One line written by `cout << i << ": " << name << endl`. -/
def outputLine (i : Int) (name : String) : String :=
  toString i ++ ": " ++ name

/-- The loop of `Table::listNuclides()`; `out` holds the lines written so
far. -/
def Table.listNuclidesLoop (t : Table D) : Nat → Int → List String → List String × Res Unit
  | 0, _, out => (out, Res.unfinished)
  | fuel + 1, i, out =>
    if i < (t.Nuclides.length : Int) then
      match vecAt t.Nuclides i with
      | Res.ret x => Table.listNuclidesLoop t fuel (i + 1) (out ++ [outputLine i x.getName])
      | Res.out_of_range => (out, Res.out_of_range)
      | Res.unfinished => (out, Res.unfinished)
    else (out, Res.ret ())

/-- Member function `Table::listNuclides()`: the lines written to `cout` and how the call
ends. -/
def Table.listNuclides (t : Table D) : List String × Res Unit :=
  t.listNuclidesLoop (t.Nuclides.length + 1) 0 []

/-- The search `std::string::find(str)` on the characters from position `pos` on: the
first position at which `str` occurs, `none` for `npos`. -/
def stringFind (str : List Char) : List Char → Nat → Option Nat
  | [], pos => if str = [] then some pos else none
  | c :: cs, pos =>
    if str.isPrefixOf (c :: cs) then some pos else stringFind str cs (pos + 1)

/-- The loop of `Table::listNuclides(string n)`. -/
def Table.listNuclidesMatchingLoop (t : Table D) (n : String) :
    Nat → Int → List String → List String × Res Unit
  | 0, _, out => (out, Res.unfinished)
  | fuel + 1, i, out =>
    if i < (t.Nuclides.length : Int) then
      match vecAt t.Nuclides i with
      | Res.ret x =>
        let nuclideName := x.getName
        if stringFind n.data nuclideName.data 0 ≠ none then
          Table.listNuclidesMatchingLoop t n fuel (i + 1) (out ++ [outputLine i nuclideName])
        else Table.listNuclidesMatchingLoop t n fuel (i + 1) out
      | Res.out_of_range => (out, Res.out_of_range)
      | Res.unfinished => (out, Res.unfinished)
    else (out, Res.ret ())

/-- Member function `Table::listNuclides(string n)`: the lines written to
`cout` and how the call ends. -/
def Table.listNuclidesMatching (t : Table D) (n : String) : List String × Res Unit :=
  t.listNuclidesMatchingLoop n (t.Nuclides.length + 1) 0 []

/-- Member function `Table::calculateTotals`: empty body. -/
def Table.calculateTotals (t : Table D) : Table D := t

/-- Member function `Table::getMostActive()`: empty body. -/
def Table.getMostActive (t : Table D) : Table D := t

/-- Member function `Table::getMostActive(int)`: empty body. -/
def Table.getMostActiveInt (t : Table D) (_ : Int) : Table D := t

/-- Member function `Table::getMostActive(double)`: empty body. -/
def Table.getMostActiveDouble (t : Table D) (_ : D) : Table D := t

/-- A call of one public member function of `Table`, with its arguments. -/
inductive Op (D : Type) where
  | setName (name : String)
  | setNumber (number : Int)
  | getName
  | getNumber
  | getNNuclides
  | getNBeamStates
  | addBeamState (s : Bool)
  | addTimeStep (tS : D)
  | addNuclide (n : Nuclide D)
  | getNuclide (i : Int)
  | findNuclide (n : String)
  | finalizeTable
  | getTimeSteps
  | getBeamStates
  | listNuclides
  | listNuclidesMatching (n : String)
  | calculateTotals
  | getMostActive
  | getMostActiveInt (k : Int)
  | getMostActiveDouble (x : D)

/-- The `Table` left by one call.  The member functions that assign no data
member (the getters, `getNuclide`, `findNuclide`, the listings) leave it as it
was, also when they leave through an exception. -/
def Table.step (trim : Int → Nuclide D → Nuclide D) (t : Table D) : Op D → Table D
  | Op.setName name => t.setName name
  | Op.setNumber number => t.setNumber number
  | Op.getName => t
  | Op.getNumber => t
  | Op.getNNuclides => t
  | Op.getNBeamStates => t
  | Op.addBeamState s => t.addBeamState s
  | Op.addTimeStep tS => t.addTimeStep tS
  | Op.addNuclide n => (t.addNuclide n).2
  | Op.getNuclide _ => t
  | Op.findNuclide _ => t
  | Op.finalizeTable => (t.finalizeTable trim).2
  | Op.getTimeSteps => t
  | Op.getBeamStates => t
  | Op.listNuclides => t
  | Op.listNuclidesMatching _ => t
  | Op.calculateTotals => t.calculateTotals
  | Op.getMostActive => t.getMostActive
  | Op.getMostActiveInt k => t.getMostActiveInt k
  | Op.getMostActiveDouble x => t.getMostActiveDouble x

/-- The `Table` left by a sequence of calls, made in list order. -/
def Table.run (trim : Int → Nuclide D → Nuclide D) (t : Table D) (ops : List (Op D)) :
    Table D :=
  ops.foldl (Table.step trim) t

/-- The argument of an `addTimeStep` call. -/
def Op.timeStepArg : Op D → Option D
  | Op.addTimeStep tS => some tS
  | _ => none

/-- The argument of an `addBeamState` call. -/
def Op.beamStateArg : Op D → Option Bool
  | Op.addBeamState s => some s
  | _ => none

/-- The argument of an `addNuclide` call. -/
def Op.nuclideArg : Op D → Option (Nuclide D)
  | Op.addNuclide n => some n
  | _ => none


/-! ## The loop of `finalizeTable` with a record of its calls -/

/-- The scenario of the spec: five time steps, five beam states and two
nuclides whose activity series have seven entries each. -/
def fiveSteps : Table Nat :=
  (Table.construct "Cycle1" 1).run Nuclide.trimActivity
    [Op.addTimeStep 1, Op.addTimeStep 2, Op.addTimeStep 3, Op.addTimeStep 4, Op.addTimeStep 5,
      Op.addBeamState true, Op.addBeamState true, Op.addBeamState false,
      Op.addBeamState false, Op.addBeamState true,
      Op.addNuclide ⟨"Co60", [11, 12, 13, 14, 15, 16, 17]⟩,
      Op.addNuclide ⟨"Cs137", [21, 22, 23, 24, 25, 26, 27]⟩]

/-- The call sequence of `2^31` calls `addBeamState(true)`. -/
def manyBeamStateCalls : List (Op Nat) :=
  List.replicate 2147483648 (Op.addBeamState true)

/-! ## Auxiliary facts about `vecAt` -/

theorem vecAt_natCast {α : Type} (v : List α) (k : Nat) (hk : k < v.length) :
    vecAt v (k : Int) = Res.ret v[k] := by
  show (match v[k]? with
    | some x => Res.ret x
    | none => Res.out_of_range) = Res.ret v[k]
  rw [List.getElem?_eq_getElem hk]

theorem vecAt_natCast_ge {α : Type} (v : List α) (k : Nat) (hk : v.length ≤ k) :
    vecAt v (k : Int) = Res.out_of_range := by
  show (match v[k]? with
    | some x => Res.ret x
    | none => Res.out_of_range) = Res.out_of_range
  rw [List.getElem?_eq_none hk]

theorem vecAt_neg {α : Type} (v : List α) (i : Int) (hi : i < 0) :
    vecAt v i = Res.out_of_range := by
  cases i with
  | ofNat k => exact absurd hi (by simp)
  | negSucc k => rfl

theorem vecAt_ne_unfinished {α : Type} (v : List α) (i : Int) :
    vecAt v i ≠ Res.unfinished := by
  rcases lt_or_le i 0 with hi | hi
  · rw [vecAt_neg v i hi]; intro h; cases h
  · obtain ⟨k, rfl⟩ := Int.eq_ofNat_of_zero_le hi
    rcases lt_or_le k v.length with hk | hk
    · rw [vecAt_natCast v k hk]; intro h; cases h
    · rw [vecAt_natCast_ge v k hk]; intro h; cases h

/-! ## The loop of `findNuclide` -/

theorem findNuclideLoop_spec (t : Table D) (n : String) :
    ∀ (fuel j : Nat), j ≤ t.Nuclides.length → t.Nuclides.length - j < fuel →
      (∀ k (hk : k < t.Nuclides.length), k < j → (t.Nuclides[k]).getName ≠ n) →
      (t.findNuclideLoop n fuel (j : Int) (-1) = Res.ret (-1) ∧
          ∀ k (hk : k < t.Nuclides.length), (t.Nuclides[k]).getName ≠ n) ∨
        ∃ m, ∃ hm : m < t.Nuclides.length,
          t.findNuclideLoop n fuel (j : Int) (-1) = Res.ret (m : Int) ∧
          (t.Nuclides[m]).getName = n ∧
          ∀ k (hk : k < t.Nuclides.length), k < m → (t.Nuclides[k]).getName ≠ n := by
  intro fuel
  induction fuel with
  | zero => intro j _ h; omega
  | succ fuel ih =>
    intro j hj hfuel hbefore
    unfold Table.findNuclideLoop
    rcases Nat.lt_or_ge j t.Nuclides.length with hlt | hge
    · have hcond : (j : Int) < (t.Nuclides.length : Int) := by exact_mod_cast hlt
      rw [if_pos hcond, vecAt_natCast _ j hlt]
      by_cases hname : (t.Nuclides[j]).getName = n
      · right
        refine ⟨j, hlt, ?_, hname, ?_⟩
        · simp [hname]
        · intro k hk hkj
          exact hbefore k hk hkj
      · have hstep := ih (j + 1) hlt (by omega) (by
          intro k hk hkj
          rcases Nat.lt_or_ge k j with h1 | h1
          · exact hbefore k hk h1
          · have : k = j := by omega
            subst this
            exact hname)
        simp only [hname, if_false]
        have hcast : ((j : Int) + 1) = ((j + 1 : Nat) : Int) := by push_cast; ring
        rw [hcast]
        exact hstep
    · have hcond : ¬ ((j : Int) < (t.Nuclides.length : Int)) := by
        have : t.Nuclides.length ≤ j := hge
        omega
      rw [if_neg hcond]
      left
      refine ⟨rfl, ?_⟩
      intro k hk
      exact hbefore k hk (by omega)

theorem set_take_drop_map {α : Type} (f : α → α) :
    ∀ (xs : List α) (j : Nat) (h : j < xs.length),
      (xs.set j (f xs[j])).take (j + 1) ++ ((xs.set j (f xs[j])).drop (j + 1)).map f
        = xs.take j ++ (xs.drop j).map f := by
  intro xs
  induction xs with
  | nil => intro j h; simp at h
  | cons x xs ih =>
    intro j h
    cases j with
    | zero => simp
    | succ j =>
      have h1 : j < xs.length := by simpa using h
      simpa using ih j h1

theorem finalizeTableLoop_eq (trim : Int → Nuclide D → Nuclide D) (max : Int) :
    ∀ (fuel j : Nat) (t : Table D), j ≤ t.Nuclides.length → t.Nuclides.length - j < fuel →
      Table.finalizeTableLoop trim max fuel (j : Int) t =
        (Res.ret (),
          { t with Nuclides := t.Nuclides.take j ++ (t.Nuclides.drop j).map (trim max) }) := by
  intro fuel
  induction fuel with
  | zero => intro j t _ h; omega
  | succ fuel ih =>
    intro j t hj hfuel
    unfold Table.finalizeTableLoop
    rcases Nat.lt_or_ge j t.Nuclides.length with hlt | hge
    · have hcond : (j : Int) < t.getNNuclides := by
        show (j : Int) < (t.Nuclides.length : Int)
        exact_mod_cast hlt
      have hget : t.getNuclide (j : Int) = Res.ret t.Nuclides[j] := vecAt_natCast _ j hlt
      rw [if_pos hcond, hget]
      have hcast : ((j : Int) + 1) = ((j + 1 : Nat) : Int) := by push_cast; ring
      simp only [Int.toNat_ofNat]
      rw [hcast, ih (j + 1) _ (by simpa using hlt) (by simp; omega)]
      simp only [set_take_drop_map (trim max) t.Nuclides j hlt]
    · have hcond : ¬ ((j : Int) < t.getNNuclides) := by
        show ¬ ((j : Int) < (t.Nuclides.length : Int))
        omega
      rw [if_neg hcond]
      have hjl : j = t.Nuclides.length := by omega
      subst hjl
      simp

/-- Closed form of `finalizeTable`: the call returns normally and every stored
nuclide has been passed once through `trim` with `getNBeamStates()`. -/
theorem finalizeTable_eq (trim : Int → Nuclide D → Nuclide D) (t : Table D) :
    t.finalizeTable trim =
      (Res.ret (), { t with Nuclides := t.Nuclides.map (trim t.getNBeamStates) }) := by
  have h := finalizeTableLoop_eq trim t.getNBeamStates (t.Nuclides.length + 1) 0 t
    (Nat.zero_le _) (by omega)
  simpa [Table.finalizeTable] using h

/-! ## The effect of one call and of a sequence of calls on the collections -/

theorem step_timeSteps (trim : Int → Nuclide D → Nuclide D) (t : Table D) (op : Op D) :
    (t.step trim op).timeSteps = t.timeSteps ++ (op.timeStepArg).toList := by
  cases op <;>
    simp [Table.step, Op.timeStepArg, Table.setName, Table.setNumber, Table.addBeamState,
      Table.addTimeStep, Table.addNuclide, Table.calculateTotals, Table.getMostActive,
      Table.getMostActiveInt, Table.getMostActiveDouble, finalizeTable_eq]

theorem step_beamStates (trim : Int → Nuclide D → Nuclide D) (t : Table D) (op : Op D) :
    (t.step trim op).beamStates = t.beamStates ++ (op.beamStateArg).toList := by
  cases op <;>
    simp [Table.step, Op.beamStateArg, Table.setName, Table.setNumber, Table.addBeamState,
      Table.addTimeStep, Table.addNuclide, Table.calculateTotals, Table.getMostActive,
      Table.getMostActiveInt, Table.getMostActiveDouble, finalizeTable_eq]

theorem step_Nuclides_length (trim : Int → Nuclide D → Nuclide D) (t : Table D) (op : Op D) :
    (t.step trim op).Nuclides.length = t.Nuclides.length + (op.nuclideArg).toList.length := by
  cases op <;>
    simp [Table.step, Op.nuclideArg, Table.setName, Table.setNumber, Table.addBeamState,
      Table.addTimeStep, Table.addNuclide, Table.calculateTotals, Table.getMostActive,
      Table.getMostActiveInt, Table.getMostActiveDouble, finalizeTable_eq]

theorem filterMap_cons_toList {α β : Type} (f : α → Option β) (a : α) (l : List α) :
    (a :: l).filterMap f = (f a).toList ++ l.filterMap f := by
  cases h : f a <;> simp [List.filterMap_cons, h]

theorem run_timeSteps (trim : Int → Nuclide D → Nuclide D) (ops : List (Op D)) :
    ∀ t : Table D, (t.run trim ops).timeSteps = t.timeSteps ++ ops.filterMap Op.timeStepArg := by
  induction ops with
  | nil => intro t; simp [Table.run]
  | cons op ops ih =>
    intro t
    have h := ih (t.step trim op)
    simp only [Table.run, List.foldl_cons] at h ⊢
    rw [h, step_timeSteps, filterMap_cons_toList, List.append_assoc]

theorem run_beamStates (trim : Int → Nuclide D → Nuclide D) (ops : List (Op D)) :
    ∀ t : Table D,
      (t.run trim ops).beamStates = t.beamStates ++ ops.filterMap Op.beamStateArg := by
  induction ops with
  | nil => intro t; simp [Table.run]
  | cons op ops ih =>
    intro t
    have h := ih (t.step trim op)
    simp only [Table.run, List.foldl_cons] at h ⊢
    rw [h, step_beamStates, filterMap_cons_toList, List.append_assoc]

theorem run_Nuclides_length (trim : Int → Nuclide D → Nuclide D) (ops : List (Op D)) :
    ∀ t : Table D,
      (t.run trim ops).Nuclides.length =
        t.Nuclides.length + (ops.filterMap Op.nuclideArg).length := by
  induction ops with
  | nil => intro t; simp [Table.run]
  | cons op ops ih =>
    intro t
    have h := ih (t.step trim op)
    simp only [Table.run, List.foldl_cons] at h ⊢
    rw [h, step_Nuclides_length, filterMap_cons_toList, List.length_append, Nat.add_assoc]

theorem intOfSize_of_le (n : Nat) (h : n ≤ 2147483647) : intOfSize n = (n : Int) := by
  unfold intOfSize
  have hmod : n % 4294967296 = n := Nat.mod_eq_of_lt (by omega)
  rw [hmod, if_pos (by omega)]

theorem intOfSize_eq_iff (n : Nat) : intOfSize n = (n : Int) ↔ n ≤ 2147483647 := by
  constructor
  · intro h
    unfold intOfSize at h
    split at h <;> omega
  · exact intOfSize_of_le n

theorem getBeamStates_eq (t : Table D) : t.getBeamStates = t.beamStates := rfl

theorem filterMap_beamStateArg_replicate (b : Bool) :
    ∀ n : Nat, (List.replicate n (Op.addBeamState b : Op D)).filterMap Op.beamStateArg
      = List.replicate n b := by
  intro n
  induction n with
  | zero => rfl
  | succ n ih =>
    rw [List.replicate_succ, List.replicate_succ, List.filterMap_cons]
    simp only [Op.beamStateArg]
    rw [ih]

/-- C7, as stated, fails: after `2^31` calls of `addBeamState` on a freshly
constructed `Table`, `getBeamStates()` has `2147483648` entries and
`getNBeamStates()` returns `-2147483648`, not the number of calls. -/
theorem getNBeamStates_differs_at_two_pow_31 :
    (manyBeamStateCalls.filterMap Op.beamStateArg).length = 2147483648 ∧
    ((Table.construct "Cycle1" 1).run Nuclide.trimActivity
      manyBeamStateCalls).getBeamStates.length = 2147483648 ∧
    ((Table.construct "Cycle1" 1).run Nuclide.trimActivity
      manyBeamStateCalls).getNBeamStates = -2147483648 ∧
    ((Table.construct "Cycle1" 1).run Nuclide.trimActivity
      manyBeamStateCalls).getNBeamStates ≠
        ((manyBeamStateCalls.filterMap Op.beamStateArg).length : Int) := by
  have hlen : (manyBeamStateCalls.filterMap Op.beamStateArg).length = 2147483648 := by
    rw [manyBeamStateCalls, filterMap_beamStateArg_replicate, List.length_replicate]
  have hbeam : ((Table.construct "Cycle1" 1).run Nuclide.trimActivity
      manyBeamStateCalls).beamStates.length = 2147483648 := by
    rw [run_beamStates, List.length_append, hlen]
    simp only [Table.construct, List.length_nil, Nat.zero_add]
  have hcount : ((Table.construct "Cycle1" 1).run Nuclide.trimActivity
      manyBeamStateCalls).getNBeamStates = -2147483648 := by
    unfold Table.getNBeamStates
    rw [hbeam]
    decide
  refine ⟨hlen, ?_, hcount, ?_⟩
  · rw [getBeamStates_eq]
    exact hbeam
  · rw [hcount, hlen]
    decide

/-- C7, amended: on a freshly constructed `Table`, after any sequence of calls,
`getTimeSteps()` is the list of the `addTimeStep` arguments in call order,
`getBeamStates()` is the list of the `addBeamState` arguments in call order,
their lengths are the numbers of these calls, and the two getters leave the
`Table` as it was.  `getNBeamStates()` is the number of `addBeamState` calls
narrowed to a 32-bit `int`; it is that number exactly when there were at most
`2^31 - 1` such calls. -/
theorem series_in_call_order (trim : Int → Nuclide D → Nuclide D) (name : String)
    (number : Int) (ops : List (Op D)) :
    ((Table.construct name number).run trim ops).getTimeSteps
        = ops.filterMap Op.timeStepArg ∧
    ((Table.construct name number).run trim ops).getBeamStates
        = ops.filterMap Op.beamStateArg ∧
    ((Table.construct name number).run trim ops).getTimeSteps.length
        = (ops.filterMap Op.timeStepArg).length ∧
    ((Table.construct name number).run trim ops).getBeamStates.length
        = (ops.filterMap Op.beamStateArg).length ∧
    ((Table.construct name number).run trim ops).getNBeamStates
        = intOfSize (ops.filterMap Op.beamStateArg).length ∧
    (((Table.construct name number).run trim ops).getNBeamStates
        = ((ops.filterMap Op.beamStateArg).length : Int) ↔
      (ops.filterMap Op.beamStateArg).length ≤ 2147483647) ∧
    (∀ t : Table D, t.step trim Op.getTimeSteps = t ∧ t.step trim Op.getBeamStates = t) := by
  have h1 := run_timeSteps trim ops (Table.construct name number)
  have h2 := run_beamStates trim ops (Table.construct name number)
  simp only [Table.construct, List.nil_append] at h1 h2
  have h3 : ((Table.construct name number).run trim ops).getNBeamStates
      = intOfSize (ops.filterMap Op.beamStateArg).length := by
    show intOfSize ((Table.construct name number).run trim ops).beamStates.length = _
    simp only [Table.construct]
    rw [h2]
  refine ⟨h1, h2, ?_, ?_, h3, ?_, fun t => ⟨rfl, rfl⟩⟩
  · show ((Table.construct name number).run trim ops).timeSteps.length = _
    simp only [Table.construct]
    rw [h1]
  · show ((Table.construct name number).run trim ops).beamStates.length = _
    simp only [Table.construct]
    rw [h2]
  · rw [h3]
    exact intOfSize_eq_iff _

/-- C9: when no nuclide is stored (`getNNuclides()` is zero), `finalizeTable()`
returns normally and the `Table` after the call is the `Table` before it,
whatever the beam-state count and the trimming primitive are. -/
theorem finalizeTable_no_nuclides (trim : Int → Nuclide D → Nuclide D) (t : Table D)
    (hempty : t.getNNuclides = 0) :
    t.finalizeTable trim = (Res.ret (), t) := by
  have hnil : t.Nuclides = [] := by
    have h : ((t.Nuclides.length : Nat) : Int) = 0 := hempty
    have h2 : t.Nuclides.length = 0 := by exact_mod_cast h
    exact List.length_eq_zero.mp h2
  rw [finalizeTable_eq, hnil]
  obtain ⟨a, b, c, d, e⟩ := t
  simp only at hnil
  subst hnil
  rfl

/-- Witness for C9: three beam states, two time steps, no nuclide. -/
theorem finalizeTable_no_nuclides_witness :
    (Table.mk "Cycle1" 1 [10, 20] [true, false, true] ([] : List (Nuclide Nat))).getNNuclides
      = 0 ∧
    (Table.mk "Cycle1" 1 [10, 20] [true, false, true]
        ([] : List (Nuclide Nat))).finalizeTable Nuclide.trimActivity =
      (Res.ret (), Table.mk "Cycle1" 1 [10, 20] [true, false, true] []) :=
  ⟨by decide,
    finalizeTable_no_nuclides Nuclide.trimActivity
      (Table.mk "Cycle1" 1 [10, 20] [true, false, true] []) (by decide)⟩

/-- C10: a newly constructed `Table` has empty time-step, beam-state and
nuclide collections; no call, and no sequence of calls, makes any of the three
collections shorter; `addTimeStep`, `addBeamState` and `addNuclide` each make
their own collection longer by exactly one and leave the other two
collections as they were. -/
theorem collections_only_grow (trim : Int → Nuclide D → Nuclide D) :
    (∀ (name : String) (number : Int),
      (Table.construct name number : Table D).timeSteps = [] ∧
      (Table.construct name number : Table D).beamStates = [] ∧
      (Table.construct name number : Table D).Nuclides = []) ∧
    (∀ (t : Table D) (op : Op D),
      t.timeSteps.length ≤ (t.step trim op).timeSteps.length ∧
      t.beamStates.length ≤ (t.step trim op).beamStates.length ∧
      t.Nuclides.length ≤ (t.step trim op).Nuclides.length) ∧
    (∀ (t : Table D) (ops : List (Op D)),
      t.timeSteps.length ≤ (t.run trim ops).timeSteps.length ∧
      t.beamStates.length ≤ (t.run trim ops).beamStates.length ∧
      t.Nuclides.length ≤ (t.run trim ops).Nuclides.length) ∧
    (∀ (t : Table D) (tS : D),
      (t.addTimeStep tS).timeSteps.length = t.timeSteps.length + 1 ∧
      (t.addTimeStep tS).beamStates = t.beamStates ∧
      (t.addTimeStep tS).Nuclides = t.Nuclides) ∧
    (∀ (t : Table D) (s : Bool),
      (t.addBeamState s).beamStates.length = t.beamStates.length + 1 ∧
      (t.addBeamState s).timeSteps = t.timeSteps ∧
      (t.addBeamState s).Nuclides = t.Nuclides) ∧
    (∀ (t : Table D) (n : Nuclide D),
      (t.addNuclide n).2.Nuclides.length = t.Nuclides.length + 1 ∧
      (t.addNuclide n).2.timeSteps = t.timeSteps ∧
      (t.addNuclide n).2.beamStates = t.beamStates) := by
  refine ⟨fun _ _ => ⟨rfl, rfl, rfl⟩, ?_, ?_, ?_, ?_, ?_⟩
  · intro t op
    rw [step_timeSteps, step_beamStates, step_Nuclides_length]
    simp
  · intro t ops
    rw [run_timeSteps, run_beamStates, run_Nuclides_length]
    simp
  · intro t tS
    simp [Table.addTimeStep]
  · intro t s
    simp [Table.addBeamState]
  · intro t n
    simp [Table.addNuclide]

/-- C11: with `trimActivity` as truncation, a second `finalizeTable()` right
after the first returns normally and leaves the `Table` the first call
left. -/
theorem finalizeTable_idempotent (t : Table D) :
    (t.finalizeTable Nuclide.trimActivity).1 = Res.ret () ∧
    ((t.finalizeTable Nuclide.trimActivity).2.finalizeTable Nuclide.trimActivity) =
      (Res.ret (), (t.finalizeTable Nuclide.trimActivity).2) := by
  rw [finalizeTable_eq]
  refine ⟨rfl, ?_⟩
  rw [finalizeTable_eq]
  simp [Table.getNBeamStates, Nuclide.trimActivity, List.take_take, Function.comp_def]

/-- C13: after `setName(s)`, `getName()` is `s` and the number, the time steps,
the beam states and the nuclides are as before; after `setNumber(k)`,
`getNumber()` is `k` and the name, the time steps, the beam states and the
nuclides are as before; both are defined for every argument.  A `Table`
constructed as `Table(s, k)` has `getName() = s` and `getNumber() = k`. -/
theorem identity_accessors (t : Table D) (s : String) (k : Int) :
    ((t.setName s).getName = s ∧ (t.setName s).getNumber = t.getNumber ∧
      (t.setName s).getTimeSteps = t.getTimeSteps ∧
      (t.setName s).getBeamStates = t.getBeamStates ∧
      (t.setName s).Nuclides = t.Nuclides) ∧
    ((t.setNumber k).getNumber = k ∧ (t.setNumber k).getName = t.getName ∧
      (t.setNumber k).getTimeSteps = t.getTimeSteps ∧
      (t.setNumber k).getBeamStates = t.getBeamStates ∧
      (t.setNumber k).Nuclides = t.Nuclides) ∧
    (t.setName s = { t with tableName := s } ∧ t.setNumber k = { t with tableNumber := k }) ∧
    ((Table.construct s k : Table D).getName = s ∧
      (Table.construct s k : Table D).getNumber = k) :=
  ⟨⟨rfl, rfl, rfl, rfl, rfl⟩, ⟨rfl, rfl, rfl, rfl, rfl⟩, ⟨rfl, rfl⟩, ⟨rfl, rfl⟩⟩

/-- C14: `calculateTotals()`, `getMostActive()`, `getMostActive(int)` and
`getMostActive(double)` have empty bodies: for every argument the `Table`
after the call is the `Table` before it, as a single call and as a step of a
call sequence. -/
theorem placeholders_are_no_ops (trim : Int → Nuclide D → Nuclide D) (t : Table D)
    (k : Int) (x : D) :
    (t.calculateTotals = t ∧ t.getMostActive = t ∧ t.getMostActiveInt k = t ∧
      t.getMostActiveDouble x = t) ∧
    (t.step trim Op.calculateTotals = t ∧ t.step trim Op.getMostActive = t ∧
      t.step trim (Op.getMostActiveInt k) = t ∧
      t.step trim (Op.getMostActiveDouble x) = t) :=
  ⟨⟨rfl, rfl, rfl, rfl⟩, ⟨rfl, rfl, rfl, rfl⟩⟩

/-! ## `findNuclide` in terms of the stored names -/

/-- Closed form of `findNuclide`: the call returns normally, with the position
of the first occurrence of `n` in the list of stored names, or `-1` when `n`
does not occur. -/
theorem findNuclide_eq (t : Table D) (n : String) :
    t.findNuclide n =
      Res.ret (if (t.Nuclides.map Nuclide.getName).indexOf n < t.Nuclides.length
        then (((t.Nuclides.map Nuclide.getName).indexOf n : Nat) : Int) else -1) := by
  have h := findNuclideLoop_spec t n (t.Nuclides.length + 1) 0 (Nat.zero_le _)
    (by omega) (by intro k _ hk; omega)
  rcases h with ⟨hret, hnone⟩ | ⟨m, hm, hret, hname, hmin⟩
  · have hnot : n ∉ t.Nuclides.map Nuclide.getName := by
      intro hmem
      obtain ⟨x, hx, hxn⟩ := List.mem_map.mp hmem
      obtain ⟨k, hk, rfl⟩ := List.getElem_of_mem hx
      exact hnone k hk hxn
    have hidx := List.indexOf_eq_length.mpr hnot
    rw [List.length_map] at hidx
    rw [hidx, if_neg (Nat.lt_irrefl _)]
    exact hret
  · have hm2 : m < (t.Nuclides.map Nuclide.getName).length := by simpa using hm
    have hidx : (t.Nuclides.map Nuclide.getName).indexOf n = m := by
      show List.findIdx (fun y => y == n) (t.Nuclides.map Nuclide.getName) = m
      rw [List.findIdx_eq hm2]
      refine ⟨by simpa using hname, ?_⟩
      intro j hj
      have hjlt : j < t.Nuclides.length := by omega
      simpa using hmin j hjlt hj
    rw [hidx, if_pos hm]
    exact hret

/-- C15: if `Nuclide::trimActivity` leaves the name of a nuclide alone, then
`finalizeTable()` returns normally and leaves `getName()`, `getNumber()`,
`getTimeSteps()`, `getBeamStates()`, `getNNuclides()` and the name stored at
each nuclide index as they were, so `findNuclide(n)` returns the same value
for every name `n`. -/
theorem finalizeTable_frame (trim : Int → Nuclide D → Nuclide D)
    (hname : ∀ (m : Int) (x : Nuclide D), (trim m x).getName = x.getName) (t : Table D) :
    (t.finalizeTable trim).1 = Res.ret () ∧
    (t.finalizeTable trim).2.getName = t.getName ∧
    (t.finalizeTable trim).2.getNumber = t.getNumber ∧
    (t.finalizeTable trim).2.getTimeSteps = t.getTimeSteps ∧
    (t.finalizeTable trim).2.getBeamStates = t.getBeamStates ∧
    (t.finalizeTable trim).2.getNNuclides = t.getNNuclides ∧
    (∀ i : Int, 0 ≤ i → i < t.getNNuclides →
      ∃ x y, t.getNuclide i = Res.ret x ∧ (t.finalizeTable trim).2.getNuclide i = Res.ret y ∧
        y.getName = x.getName) ∧
    (∀ n : String, (t.finalizeTable trim).2.findNuclide n = t.findNuclide n) := by
  rw [finalizeTable_eq]
  have hnames : (t.Nuclides.map (trim t.getNBeamStates)).map Nuclide.getName
      = t.Nuclides.map Nuclide.getName := by
    simp [Function.comp_def, hname]
  refine ⟨rfl, rfl, rfl, rfl, rfl, by simp [Table.getNNuclides], ?_, ?_⟩
  · intro i hi0 hilt
    obtain ⟨k, rfl⟩ := Int.eq_ofNat_of_zero_le hi0
    have hk : k < t.Nuclides.length := by
      have : (k : Int) < ((t.Nuclides.length : Nat) : Int) := hilt
      exact_mod_cast this
    have hk2 : k < (t.Nuclides.map (trim t.getNBeamStates)).length := by simpa using hk
    refine ⟨t.Nuclides[k], (t.Nuclides.map (trim t.getNBeamStates))[k],
      vecAt_natCast _ k hk, vecAt_natCast _ k hk2, ?_⟩
    simp [hname]
  · intro n
    rw [findNuclide_eq, findNuclide_eq]
    simp only [hnames, List.length_map]

/-- Witness for C15: truncation as the trimming primitive, on the table with
five beam states and two nuclides with seven activity entries each. -/
theorem finalizeTable_frame_witness :
    (∀ (m : Int) (x : Nuclide Nat), (Nuclide.trimActivity m x).getName = x.getName) ∧
    ((fiveSteps.finalizeTable Nuclide.trimActivity).1 = Res.ret () ∧
    (fiveSteps.finalizeTable Nuclide.trimActivity).2.getName = fiveSteps.getName ∧
    (fiveSteps.finalizeTable Nuclide.trimActivity).2.getNumber = fiveSteps.getNumber ∧
    (fiveSteps.finalizeTable Nuclide.trimActivity).2.getTimeSteps = fiveSteps.getTimeSteps ∧
    (fiveSteps.finalizeTable Nuclide.trimActivity).2.getBeamStates = fiveSteps.getBeamStates ∧
    (fiveSteps.finalizeTable Nuclide.trimActivity).2.getNNuclides = fiveSteps.getNNuclides ∧
    (∀ i : Int, 0 ≤ i → i < fiveSteps.getNNuclides →
      ∃ x y, fiveSteps.getNuclide i = Res.ret x ∧
        (fiveSteps.finalizeTable Nuclide.trimActivity).2.getNuclide i = Res.ret y ∧
        y.getName = x.getName) ∧
    (∀ n : String,
      (fiveSteps.finalizeTable Nuclide.trimActivity).2.findNuclide n
        = fiveSteps.findNuclide n)) ∧
    (fiveSteps.finalizeTable Nuclide.trimActivity).2 ≠ fiveSteps :=
  ⟨fun _ _ => rfl, finalizeTable_frame Nuclide.trimActivity (fun _ _ => rfl) fiveSteps,
    by decide⟩

end Cinder
